import Mathlib

/-!
# deb-get-repomd: Release parsing, mirror race and checksum-gated fetch

A shallow embedding of `repomd.go` and of the mirror race / fetch loop of
`main.go`, followed by the properties of the specification that can be settled
on it.

Conventions of the embedding

* A Go `string` / `[]byte` is a `Str`, the list of its characters; `len` is the
  UTF-8 byte length (`byteLen`).
* A Go `map[string]T` is an association list with unique keys (`mapGet`,
  `mapSet`); the iteration order of `range` over a map is a parameter of the
  loops that iterate.
* Library capabilities that are not part of the repository (the digests, the
  RFC1123 date parser, the Unicode lower-case table, the file system and the
  HTTP client, the OpenPGP packet reader and keyring lookup) are passed in as
  records of functions (`Lib`, `World`, `PGP`).
* A run that stops the process (nil dereference, `os.Exit`) is an explicit
  `Outcome`.
-/

namespace DebGetRepomd

/-! ## Strings -/

/-- A Go string, as the list of its characters. -/
abbrev Str := List Char

/-- Go `len(s)`: the number of bytes of the UTF-8 encoding. -/
def byteLen (s : Str) : Nat := (s.map Char.utf8Size).sum

/-- Go `unicode.IsSpace`: the Latin-1 spaces and the characters of category Z /
property `White_Space`. -/
def isSpace (c : Char) : Bool :=
  let n := c.toNat
  n == 0x09 || n == 0x0A || n == 0x0B || n == 0x0C || n == 0x0D || n == 0x20 ||
  n == 0x85 || n == 0xA0 || n == 0x1680 || (0x2000 ≤ n && n ≤ 0x200A) ||
  n == 0x2028 || n == 0x2029 || n == 0x202F || n == 0x205F || n == 0x3000

/-- Go `strings.TrimSpace`. -/
def TrimSpace (s : Str) : Str :=
  ((s.dropWhile isSpace).reverse.dropWhile isSpace).reverse

/-- Worker of `Fields`: `cur` is the field being read, reversed. -/
def fieldsAux : Str → Str → List Str
  | [], cur => if cur = [] then [] else [cur.reverse]
  | c :: cs, cur =>
    if isSpace c then
      (if cur = [] then fieldsAux cs [] else cur.reverse :: fieldsAux cs [])
    else fieldsAux cs (c :: cur)

/-- Go `strings.Fields`: the maximal runs of non-space characters. -/
def Fields (s : Str) : List Str := fieldsAux s []

/-- Go `strings.SplitN(s, sep, 2)` for a one-character separator: cut at the
first separator, or the whole string when there is none. -/
def SplitN2 (s : Str) (sep : Char) : List Str :=
  match s.span (fun c => c != sep) with
  | (a, []) => [a]
  | (a, _ :: b) => [a, b]

/-- Go `strings.HasPrefix`. -/
def startsWith (s p : Str) : Bool := p.isPrefixOf s

/-- Decimal digit test used by `strconv.Atoi`. -/
def isDigit (c : Char) : Bool := 48 ≤ c.toNat && c.toNat ≤ 57

/-- Go `strconv.Atoi` on a 64-bit platform: an optional sign, at least one
decimal digit, nothing else, and a value in the `int64` range. -/
def Atoi (s : Str) : Option Int :=
  let neg : Bool := match s with
    | '-' :: _ => true
    | _ => false
  let ds : Str := match s with
    | '-' :: r => r
    | '+' :: r => r
    | _ => s
  if ds = [] then none
  else if ds.all isDigit then
    let n : Nat := ds.foldl (fun a c => a * 10 + (c.toNat - 48)) 0
    let v : Int := if neg then -(n : Int) else (n : Int)
    if -(2 : Int) ^ 63 ≤ v ∧ v ≤ 2 ^ 63 - 1 then some v else none
  else none

/-- Lower-casing of an ASCII character. -/
def asciiLower (c : Char) : Char :=
  if 65 ≤ c.toNat ∧ c.toNat ≤ 90 then Char.ofNat (c.toNat + 32) else c

/-- Go `bufio.MaxScanTokenSize`: the buffer of a default `bufio.Scanner`. -/
def MaxScanTokenSize : Nat := 64 * 1024

/-- Go `dropCR`: one trailing carriage return is removed from a line. -/
def dropCR (line : Str) : Str :=
  match line.reverse with
  | '\r' :: r => r.reverse
  | _ => line

/-- The tokens a default `bufio.Scanner` with `bufio.ScanLines` delivers until
`Scan` returns false. `cur` is the current line reversed and `n` its byte
length. A line whose bytes before the newline do not fit in the buffer together
with the newline (`n ≥ MaxScanTokenSize`) makes `Scan` return false with
`ErrTooLong`: the scan stops there, without a token. -/
def scanLinesAux : Str → Str → Nat → List Str
  | [], cur, n =>
    if MaxScanTokenSize ≤ n then []
    else if cur = [] then [] else [dropCR cur.reverse]
  | c :: cs, cur, n =>
    if c = '\n' then
      (if MaxScanTokenSize ≤ n then [] else dropCR cur.reverse :: scanLinesAux cs [] 0)
    else scanLinesAux cs (c :: cur) (n + c.utf8Size)

/-- The lines read by `for scanner.Scan() { line = scanner.Text() ... }`. -/
def scanLines (contents : Str) : List Str := scanLinesAux contents [] 0

/-! ## Go maps -/

/-- Go `m[k]` with the comma-ok form. -/
def mapGet {β : Type} : List (Str × β) → Str → Option β
  | [], _ => none
  | (k', v) :: r, k => if k' = k then some v else mapGet r k

/-- Go `m[k] = v`. -/
def mapSet {β : Type} : List (Str × β) → Str → β → List (Str × β)
  | [], k, v => [(k, v)]
  | (k', v') :: r, k, v => if k' = k then (k, v) :: r else (k', v') :: mapSet r k v

/-! ## Data model (repomd.go) -/

/-- Go `time.Time` as an instant: the seconds since January 1, 1970 UTC and the
nanoseconds within the second. -/
structure Time where
  sec : Int
  nsec : Nat
deriving DecidableEq, Repr

/-- Go `Time.Unix()`: the seconds, without the fraction. -/
def Time.Unix (t : Time) : Int := t.sec

/-- The zero `time.Time`, January 1 of year 1, 00:00:00 UTC. -/
def Time.zero : Time := { sec := -62135596800, nsec := 0 }

/-- Go `RepoHashFile`. -/
structure RepoHashFile where
  Checksum : List Str
  ChecksumType : List Str
  Size : Int
deriving DecidableEq, Repr

/-- Go `Repomd`. -/
structure Repomd where
  Header : List (Str × Str)
  Data : List (Str × RepoHashFile)
  fileContents : Str
  gpgFileContents : Str
  gpgInFileContents : Str
  path : Str
  mirror : Str
  Timestamp : Time
deriving DecidableEq, Repr

/-- The zero value of `Repomd` (`var latestRepomd Repomd`). -/
def Repomd.zero : Repomd :=
  { Header := [], Data := [], fileContents := [], gpgFileContents := [],
    gpgInFileContents := [], path := [], mirror := [], Timestamp := Time.zero }

/-- How a run of a function ends: with a value, with a run-time panic (nil
dereference, index out of range), or with `os.Exit` / `log.Fatal`. -/
inductive Outcome (α : Type) where
  | ok (a : α)
  | panicked
  | exited (code : Nat)
deriving DecidableEq, Repr

/-- Library capabilities used by `repomd.go`. -/
structure Lib where
  /-- Go `md5.Sum`, the digest bytes. -/
  md5 : Str → List Nat
  /-- Go `sha1.Sum`. -/
  sha1 : Str → List Nat
  /-- Go `sha256.Sum256`. -/
  sha256 : Str → List Nat
  /-- Go `sha512.Sum512`. -/
  sha512 : Str → List Nat
  /-- Go `unicode.ToLower` on non-ASCII characters. -/
  unicodeToLower : Char → Char
  /-- Go `time.Parse(time.RFC1123, ·)`, `none` for an error. -/
  parseRFC1123 : Str → Option Time

/-! ## Digests

The four digests of `readWithChecksum`, written out so that the embedding can
be run on concrete files: MD5 (RFC 1321), SHA-1 (RFC 3174), SHA-256 and SHA-512
(FIPS 180-4). They are the standard instance of the digests of `Lib`. -/

/-- The UTF-8 encoding of a character. -/
def utf8Bytes (c : Char) : List Nat :=
  let n := c.toNat
  if n < 0x80 then [n]
  else if n < 0x800 then [0xC0 + n / 64, 0x80 + n % 64]
  else if n < 0x10000 then [0xE0 + n / 4096, 0x80 + n / 64 % 64, 0x80 + n % 64]
  else [0xF0 + n / 262144, 0x80 + n / 4096 % 64, 0x80 + n / 64 % 64, 0x80 + n % 64]

/-- The bytes of a Go string. -/
def bytesOf : Str → List Nat
  | [] => []
  | c :: cs => utf8Bytes c ++ bytesOf cs

/-- Rotation to the left of a word of `w` bits. -/
def rotl (w x n : Nat) : Nat := (x * 2 ^ n + x / 2 ^ (w - n)) % 2 ^ w

/-- Rotation to the right of a word of `w` bits. -/
def rotr (w x n : Nat) : Nat := (x / 2 ^ n + x * 2 ^ (w - n)) % 2 ^ w

/-- Complement of a word of `w` bits. -/
def wnot (w x : Nat) : Nat := x ^^^ (2 ^ w - 1)

/-- The `k` low bytes of `n`, least significant first. -/
def leBytes (n : Nat) : Nat → List Nat
  | 0 => []
  | k + 1 => n % 256 :: leBytes (n / 256) k

/-- The `k` low bytes of `n`, most significant first. -/
def beBytes (n : Nat) : Nat → List Nat
  | 0 => []
  | k + 1 => beBytes (n / 256) k ++ [n % 256]

/-- The word with the given bytes, least significant first. -/
def leWord : List Nat → Nat
  | [] => 0
  | b :: bs => b + 256 * leWord bs

/-- The word with the given bytes, most significant first. -/
def beWord (bs : List Nat) : Nat := bs.foldl (fun a b => a * 256 + b) 0

/-- The first `k` big-endian words of `size` bytes of a block. -/
def beWords (size : Nat) : List Nat → Nat → List Nat
  | _, 0 => []
  | block, k + 1 => beWord (block.take size) :: beWords size (block.drop size) k

/-- The message followed by the byte 0x80 and zero bytes up to `lenBytes` bytes
before a multiple of the block size. -/
def padTo (blockSize lenBytes : Nat) (msg : List Nat) : List Nat :=
  msg ++ 0x80 :: List.replicate
    ((2 * blockSize - 1 - lenBytes - msg.length % blockSize) % blockSize) 0

/-- The state after the first `k` blocks of `blockSize` bytes. -/
def foldBlocks (blockSize : Nat) (f : List Nat → List Nat → List Nat) :
    List Nat → Nat → List Nat → List Nat
  | _, 0, st => st
  | data, k + 1, st => foldBlocks blockSize f (data.drop blockSize) k (f st (data.take blockSize))

/-- Word-wise sum of two states. -/
def addWords (w : Nat) (a b : List Nat) : List Nat :=
  List.zipWith (fun x y => (x + y) % 2 ^ w) a b

/-- The per-round shifts of MD5. -/
def md5S : List Nat :=
  [7, 12, 17, 22, 7, 12, 17, 22, 7, 12, 17, 22, 7, 12, 17, 22,
   5, 9, 14, 20, 5, 9, 14, 20, 5, 9, 14, 20, 5, 9, 14, 20,
   4, 11, 16, 23, 4, 11, 16, 23, 4, 11, 16, 23, 4, 11, 16, 23,
   6, 10, 15, 21, 6, 10, 15, 21, 6, 10, 15, 21, 6, 10, 15, 21]

/-- The sine table of MD5. -/
def md5K : List Nat :=
  [0xd76aa478, 0xe8c7b756, 0x242070db, 0xc1bdceee, 0xf57c0faf, 0x4787c62a,
   0xa8304613, 0xfd469501, 0x698098d8, 0x8b44f7af, 0xffff5bb1, 0x895cd7be,
   0x6b901122, 0xfd987193, 0xa679438e, 0x49b40821, 0xf61e2562, 0xc040b340,
   0x265e5a51, 0xe9b6c7aa, 0xd62f105d, 0x02441453, 0xd8a1e681, 0xe7d3fbc8,
   0x21e1cde6, 0xc33707d6, 0xf4d50d87, 0x455a14ed, 0xa9e3e905, 0xfcefa3f8,
   0x676f02d9, 0x8d2a4c8a, 0xfffa3942, 0x8771f681, 0x6d9d6122, 0xfde5380c,
   0xa4beea44, 0x4bdecfa9, 0xf6bb4b60, 0xbebfbc70, 0x289b7ec6, 0xeaa127fa,
   0xd4ef3085, 0x04881d05, 0xd9d4d039, 0xe6db99e5, 0x1fa27cf8, 0xc4ac5665,
   0xf4292244, 0x432aff97, 0xab9423a7, 0xfc93a039, 0x655b59c3, 0x8f0ccc92,
   0xffeff47d, 0x85845dd1, 0x6fa87e4f, 0xfe2ce6e0, 0xa3014314, 0x4e0811a1,
   0xf7537e82, 0xbd3af235, 0x2ad7d2bb, 0xeb86d391]

/-- One of the 64 operations of MD5 on the state (a, b, c, d). -/
def md5Step (block : List Nat) (st : List Nat) (i : Nat) : List Nat :=
  let a := st.getD 0 0
  let b := st.getD 1 0
  let c := st.getD 2 0
  let d := st.getD 3 0
  let f : Nat :=
    if i < 16 then (b &&& c) ||| (wnot 32 b &&& d)
    else if i < 32 then (d &&& b) ||| (wnot 32 d &&& c)
    else if i < 48 then b ^^^ c ^^^ d
    else c ^^^ (b ||| wnot 32 d)
  let g : Nat :=
    if i < 16 then i
    else if i < 32 then (5 * i + 1) % 16
    else if i < 48 then (3 * i + 5) % 16
    else 7 * i % 16
  let x := (f + a + md5K.getD i 0 + leWord ((block.drop (4 * g)).take 4)) % 2 ^ 32
  [d, (b + rotl 32 x (md5S.getD i 0)) % 2 ^ 32, b, c]

/-- MD5 on one block of 64 bytes. -/
def md5Block (st block : List Nat) : List Nat :=
  addWords 32 st ((List.range 64).foldl (md5Step block) st)

/-- Go `md5.Sum`. -/
def md5Sum (s : Str) : List Nat :=
  let msg := bytesOf s
  let padded := padTo 64 8 msg ++ leBytes (8 * msg.length % 2 ^ 64) 8
  let r := foldBlocks 64 md5Block padded (padded.length / 64)
    [0x67452301, 0xefcdab89, 0x98badcfe, 0x10325476]
  (r.map (fun x => leBytes x 4)).flatten

/-- The message schedule of SHA-1 extended by `k` words from index `i`. -/
def sha1Schedule : List Nat → Nat → Nat → List Nat
  | ws, _, 0 => ws
  | ws, i, k + 1 =>
    sha1Schedule
      (ws ++ [rotl 32 (ws.getD (i - 3) 0 ^^^ ws.getD (i - 8) 0 ^^^ ws.getD (i - 14) 0 ^^^
        ws.getD (i - 16) 0) 1]) (i + 1) k

/-- One of the 80 rounds of SHA-1 on the state (a, b, c, d, e). -/
def sha1Step (ws : List Nat) (st : List Nat) (i : Nat) : List Nat :=
  let a := st.getD 0 0
  let b := st.getD 1 0
  let c := st.getD 2 0
  let d := st.getD 3 0
  let e := st.getD 4 0
  let f : Nat :=
    if i < 20 then (b &&& c) ||| (wnot 32 b &&& d)
    else if i < 40 then b ^^^ c ^^^ d
    else if i < 60 then (b &&& c) ||| (b &&& d) ||| (c &&& d)
    else b ^^^ c ^^^ d
  let k : Nat :=
    if i < 20 then 0x5A827999
    else if i < 40 then 0x6ED9EBA1
    else if i < 60 then 0x8F1BBCDC
    else 0xCA62C1D6
  [(rotl 32 a 5 + f + e + k + ws.getD i 0) % 2 ^ 32, a, rotl 32 b 30, c, d]

/-- SHA-1 on one block of 64 bytes. -/
def sha1Block (st block : List Nat) : List Nat :=
  addWords 32 st ((List.range 80).foldl (sha1Step (sha1Schedule (beWords 4 block 16) 16 64)) st)

/-- Go `sha1.Sum`. -/
def sha1Sum (s : Str) : List Nat :=
  let msg := bytesOf s
  let padded := padTo 64 8 msg ++ beBytes (8 * msg.length % 2 ^ 64) 8
  let r := foldBlocks 64 sha1Block padded (padded.length / 64)
    [0x67452301, 0xEFCDAB89, 0x98BADCFE, 0x10325476, 0xC3D2E1F0]
  (r.map (fun x => beBytes x 4)).flatten

/-- The parameters in which SHA-256 and SHA-512 differ: the word size in bits,
the number of rounds, the rotation amounts of the four sigma functions and the
round constants. -/
structure Sha2Params where
  w : Nat
  rounds : Nat
  s0 : Nat × Nat × Nat
  s1 : Nat × Nat × Nat
  S0 : Nat × Nat × Nat
  S1 : Nat × Nat × Nat
  K : List Nat

/-- The message schedule of SHA-2 extended by `k` words from index `i`. -/
def sha2Schedule (p : Sha2Params) : List Nat → Nat → Nat → List Nat
  | ws, _, 0 => ws
  | ws, i, k + 1 =>
    let x := ws.getD (i - 15) 0
    let y := ws.getD (i - 2) 0
    let sig0 := rotr p.w x p.s0.1 ^^^ rotr p.w x p.s0.2.1 ^^^ (x / 2 ^ p.s0.2.2)
    let sig1 := rotr p.w y p.s1.1 ^^^ rotr p.w y p.s1.2.1 ^^^ (y / 2 ^ p.s1.2.2)
    sha2Schedule p (ws ++ [(ws.getD (i - 16) 0 + sig0 + ws.getD (i - 7) 0 + sig1) % 2 ^ p.w])
      (i + 1) k

/-- One round of SHA-2 on the state (a, b, c, d, e, f, g, h). -/
def sha2Step (p : Sha2Params) (ws : List Nat) (st : List Nat) (i : Nat) : List Nat :=
  let a := st.getD 0 0
  let b := st.getD 1 0
  let c := st.getD 2 0
  let d := st.getD 3 0
  let e := st.getD 4 0
  let f := st.getD 5 0
  let g := st.getD 6 0
  let h := st.getD 7 0
  let sum1 := rotr p.w e p.S1.1 ^^^ rotr p.w e p.S1.2.1 ^^^ rotr p.w e p.S1.2.2
  let ch := (e &&& f) ^^^ (wnot p.w e &&& g)
  let t1 := h + sum1 + ch + p.K.getD i 0 + ws.getD i 0
  let sum0 := rotr p.w a p.S0.1 ^^^ rotr p.w a p.S0.2.1 ^^^ rotr p.w a p.S0.2.2
  let maj := (a &&& b) ^^^ (a &&& c) ^^^ (b &&& c)
  [(t1 + sum0 + maj) % 2 ^ p.w, a, b, c, (d + t1) % 2 ^ p.w, e, f, g]

/-- SHA-2 on one block of 16 words. -/
def sha2Block (p : Sha2Params) (st block : List Nat) : List Nat :=
  addWords p.w st ((List.range p.rounds).foldl
    (sha2Step p (sha2Schedule p (beWords (p.w / 8) block 16) 16 (p.rounds - 16))) st)

/-- SHA-2 of a message from the initial state `h0`. -/
def sha2Sum (p : Sha2Params) (h0 : List Nat) (s : Str) : List Nat :=
  let msg := bytesOf s
  let blockSize := 2 * p.w
  let padded := padTo blockSize (p.w / 4) msg ++ beBytes (8 * msg.length % 2 ^ (2 * p.w)) (p.w / 4)
  let r := foldBlocks blockSize (sha2Block p) padded (padded.length / blockSize) h0
  (r.map (fun x => beBytes x (p.w / 8))).flatten

/-- The parameters of SHA-256. -/
def sha256Params : Sha2Params :=
  { w := 32, rounds := 64, s0 := (7, 18, 3), s1 := (17, 19, 10), S0 := (2, 13, 22),
    S1 := (6, 11, 25),
    K := [
      0x428a2f98, 0x71374491, 0xb5c0fbcf, 0xe9b5dba5, 0x3956c25b, 0x59f111f1,
      0x923f82a4, 0xab1c5ed5, 0xd807aa98, 0x12835b01, 0x243185be, 0x550c7dc3,
      0x72be5d74, 0x80deb1fe, 0x9bdc06a7, 0xc19bf174, 0xe49b69c1, 0xefbe4786,
      0x0fc19dc6, 0x240ca1cc, 0x2de92c6f, 0x4a7484aa, 0x5cb0a9dc, 0x76f988da,
      0x983e5152, 0xa831c66d, 0xb00327c8, 0xbf597fc7, 0xc6e00bf3, 0xd5a79147,
      0x06ca6351, 0x14292967, 0x27b70a85, 0x2e1b2138, 0x4d2c6dfc, 0x53380d13,
      0x650a7354, 0x766a0abb, 0x81c2c92e, 0x92722c85, 0xa2bfe8a1, 0xa81a664b,
      0xc24b8b70, 0xc76c51a3, 0xd192e819, 0xd6990624, 0xf40e3585, 0x106aa070,
      0x19a4c116, 0x1e376c08, 0x2748774c, 0x34b0bcb5, 0x391c0cb3, 0x4ed8aa4a,
      0x5b9cca4f, 0x682e6ff3, 0x748f82ee, 0x78a5636f, 0x84c87814, 0x8cc70208,
      0x90befffa, 0xa4506ceb, 0xbef9a3f7, 0xc67178f2] }

/-- Go `sha256.Sum256`. -/
def sha256Sum (s : Str) : List Nat :=
  sha2Sum sha256Params
    [0x6a09e667, 0xbb67ae85, 0x3c6ef372, 0xa54ff53a,
     0x510e527f, 0x9b05688c, 0x1f83d9ab, 0x5be0cd19] s

/-- The parameters of SHA-512. -/
def sha512Params : Sha2Params :=
  { w := 64, rounds := 80, s0 := (1, 8, 7), s1 := (19, 61, 6), S0 := (28, 34, 39),
    S1 := (14, 18, 41),
    K := [
      0x428a2f98d728ae22, 0x7137449123ef65cd, 0xb5c0fbcfec4d3b2f, 0xe9b5dba58189dbbc,
      0x3956c25bf348b538, 0x59f111f1b605d019, 0x923f82a4af194f9b, 0xab1c5ed5da6d8118,
      0xd807aa98a3030242, 0x12835b0145706fbe, 0x243185be4ee4b28c, 0x550c7dc3d5ffb4e2,
      0x72be5d74f27b896f, 0x80deb1fe3b1696b1, 0x9bdc06a725c71235, 0xc19bf174cf692694,
      0xe49b69c19ef14ad2, 0xefbe4786384f25e3, 0x0fc19dc68b8cd5b5, 0x240ca1cc77ac9c65,
      0x2de92c6f592b0275, 0x4a7484aa6ea6e483, 0x5cb0a9dcbd41fbd4, 0x76f988da831153b5,
      0x983e5152ee66dfab, 0xa831c66d2db43210, 0xb00327c898fb213f, 0xbf597fc7beef0ee4,
      0xc6e00bf33da88fc2, 0xd5a79147930aa725, 0x06ca6351e003826f, 0x142929670a0e6e70,
      0x27b70a8546d22ffc, 0x2e1b21385c26c926, 0x4d2c6dfc5ac42aed, 0x53380d139d95b3df,
      0x650a73548baf63de, 0x766a0abb3c77b2a8, 0x81c2c92e47edaee6, 0x92722c851482353b,
      0xa2bfe8a14cf10364, 0xa81a664bbc423001, 0xc24b8b70d0f89791, 0xc76c51a30654be30,
      0xd192e819d6ef5218, 0xd69906245565a910, 0xf40e35855771202a, 0x106aa07032bbd1b8,
      0x19a4c116b8d2d0c8, 0x1e376c085141ab53, 0x2748774cdf8eeb99, 0x34b0bcb5e19b48a8,
      0x391c0cb3c5c95a63, 0x4ed8aa4ae3418acb, 0x5b9cca4f7763e373, 0x682e6ff3d6b2b8a3,
      0x748f82ee5defb2fc, 0x78a5636f43172f60, 0x84c87814a1f0ab72, 0x8cc702081a6439ec,
      0x90befffa23631e28, 0xa4506cebde82bde9, 0xbef9a3f7b2c67915, 0xc67178f2e372532b,
      0xca273eceea26619c, 0xd186b8c721c0c207, 0xeada7dd6cde0eb1e, 0xf57d4f7fee6ed178,
      0x06f067aa72176fba, 0x0a637dc5a2c898a6, 0x113f9804bef90dae, 0x1b710b35131c471b,
      0x28db77f523047d84, 0x32caab7b40c72493, 0x3c9ebe0a15c9bebc, 0x431d67c49c100d4c,
      0x4cc5d4becb3e42b6, 0x597f299cfc657e2a, 0x5fcb6fab3ad6faec, 0x6c44198c4a475817] }

/-- Go `sha512.Sum512`. -/
def sha512Sum (s : Str) : List Nat :=
  sha2Sum sha512Params
    [0x6a09e667f3bcc908, 0xbb67ae8584caa73b, 0x3c6ef372fe94f82b, 0xa54ff53a5f1d36f1,
     0x510e527fade682d1, 0x9b05688c2b3e6c1f, 0x1f83d9abfb41bd6b, 0x5be0cd19137e2179] s

/-! ## Dates

`time.Parse(time.RFC1123, ·)` written out for the zones UTC and GMT, the
standard instance of the date parser of `Lib`. Go resolves other zone
abbreviations against the local zone of the machine, and takes a run of
several spaces where the layout has one; both are left out here and rejected.
The statements below that hold for every `Lib` do not depend on this
instance; the concrete inputs have single spaces and the zone UTC. -/

/-- The value of a string of decimal digits. -/
def digitsVal (ds : Str) : Nat := ds.foldl (fun a c => a * 10 + (c.toNat - 48)) 0

/-- Go `match` of package time: equality of ASCII letters up to case. -/
def sameNameFold (a b : Str) : Bool := a.map asciiLower == b.map asciiLower

/-- Go `lookup` of package time in a table of three-letter names: the index of
the name the value starts with, and the rest of the value. -/
def lookupName3 (tab : List Str) (value : Str) : Option (Nat × Str) :=
  if value.length < 3 then none
  else
    match tab.indexOf? ((value.take 3).map asciiLower) with
    | some i => some (i, value.drop 3)
    | none => none

/-- Go `shortDayNames`, in lower case. -/
def shortDayNames : List Str :=
  [['s', 'u', 'n'], ['m', 'o', 'n'], ['t', 'u', 'e'], ['w', 'e', 'd'], ['t', 'h', 'u'],
   ['f', 'r', 'i'], ['s', 'a', 't']]

/-- Go `shortMonthNames`, in lower case. -/
def shortMonthNames : List Str :=
  [['j', 'a', 'n'], ['f', 'e', 'b'], ['m', 'a', 'r'], ['a', 'p', 'r'], ['m', 'a', 'y'],
   ['j', 'u', 'n'], ['j', 'u', 'l'], ['a', 'u', 'g'], ['s', 'e', 'p'], ['o', 'c', 't'],
   ['n', 'o', 'v'], ['d', 'e', 'c']]

/-- Go `getnum`: one or two digits, exactly two when `fixed`. -/
def getnum (value : Str) (fixed : Bool) : Option (Nat × Str) :=
  match value with
  | a :: b :: rest =>
    if isDigit a then
      if isDigit b then some (digitsVal [a, b], rest)
      else if fixed then none else some (digitsVal [a], b :: rest)
    else none
  | [a] => if isDigit a && !fixed then some (digitsVal [a], []) else none
  | [] => none

/-- A literal piece of the layout. -/
def expectLit (lit value : Str) : Option Str :=
  if startsWith value lit then some (value.drop lit.length) else none

/-- The fractional second Go accepts after the seconds field although the
layout has none: a period or comma and digits, of which nine count. -/
def getFraction (value : Str) : Nat × Str :=
  match value with
  | p :: d :: rest =>
    if (p = '.' ∨ p = ',') ∧ isDigit d then
      let ds := d :: rest.takeWhile isDigit
      let kept := ds.take 9
      (digitsVal kept * 10 ^ (9 - kept.length), rest.dropWhile isDigit)
    else (0, value)
  | _ => (0, value)

/-- Whether a year is a leap year. -/
def isLeap (y : Nat) : Bool := y % 4 == 0 && (y % 100 != 0 || y % 400 == 0)

/-- Go `daysIn`: the days of month `m` (1 to 12) of year `y`. -/
def daysIn (m y : Nat) : Nat :=
  if m = 2 then (if isLeap y then 29 else 28)
  else if m = 4 ∨ m = 6 ∨ m = 9 ∨ m = 11 then 30 else 31

/-- The days from January 1, 1970 to the given day of the proleptic Gregorian
calendar. -/
def daysFromCivil (y m d : Nat) : Int :=
  let y' : Int := if m ≤ 2 then (y : Int) - 1 else (y : Int)
  let era : Int := y' / 400
  let yoe : Int := y' - era * 400
  let mp : Int := if m > 2 then (m : Int) - 3 else (m : Int) + 9
  let doy : Int := (153 * mp + 2) / 5 + (d : Int) - 1
  let doe : Int := yoe * 365 + yoe / 4 - yoe / 100 + doy
  era * 146097 + doe - 719468

/-- The date part of the layout, `Mon, 02 Jan 2006 `: the day, the month
(from 0), the year and the rest of the value. -/
def parseDatePart (value : Str) : Option (Nat × Nat × Nat × Str) :=
  match lookupName3 shortDayNames value with
  | none => none
  | some (_, v1) =>
    match expectLit [',', ' '] v1 with
    | none => none
    | some v2 =>
      match getnum v2 true with
      | none => none
      | some (day, v3) =>
        match expectLit [' '] v3 with
        | none => none
        | some v4 =>
          match lookupName3 shortMonthNames v4 with
          | none => none
          | some (mon, v5) =>
            match expectLit [' '] v5 with
            | none => none
            | some v6 =>
              if v6.length < 4 || !(v6.take 4).all isDigit then none
              else
                match expectLit [' '] (v6.drop 4) with
                | none => none
                | some v7 => some (day, mon, digitsVal (v6.take 4), v7)

/-- The clock part of the layout, `15:04:05`, with the fractional second: the
hour, minute, second, nanoseconds and the rest of the value. -/
def parseClockPart (value : Str) : Option (Nat × Nat × Nat × Nat × Str) :=
  match getnum value false with
  | none => none
  | some (hour, v1) =>
    if 24 ≤ hour then none
    else
      match expectLit [':'] v1 with
      | none => none
      | some v2 =>
        match getnum v2 true with
        | none => none
        | some (min, v3) =>
          if 60 ≤ min then none
          else
            match expectLit [':'] v3 with
            | none => none
            | some v4 =>
              match getnum v4 true with
              | none => none
              | some (sec, v5) =>
                if 60 ≤ sec then none
                else some (hour, min, sec, (getFraction v5).1, (getFraction v5).2)

/-- Go `time.Parse(time.RFC1123, value)` for the layout
`Mon, 02 Jan 2006 15:04:05 MST` with zone UTC or GMT; `none` is an error. -/
def parseRFC1123UTC (value : Str) : Option Time :=
  match parseDatePart value with
  | none => none
  | some (day, mon, year, v1) =>
    match parseClockPart v1 with
    | none => none
    | some (hour, min, sec, nsec, v2) =>
      match expectLit [' '] v2 with
      | none => none
      | some zone =>
        if zone ≠ ['U', 'T', 'C'] ∧ zone ≠ ['G', 'M', 'T'] then none
        else if day < 1 ∨ daysIn (mon + 1) year < day then none
        else
          some { sec := daysFromCivil year (mon + 1) day * 86400 + (hour : Int) * 3600
                          + (min : Int) * 60 + (sec : Int),
                 nsec := nsec }

/-- Go `unicode.ToLower` on the Latin-1 supplement; other characters are left
as they are. -/
def latin1ToLower (c : Char) : Char :=
  if 0xC0 ≤ c.toNat ∧ c.toNat ≤ 0xDE ∧ c.toNat ≠ 0xD7 then Char.ofNat (c.toNat + 32) else c

/-- The standard library as written out above. -/
def stdLib : Lib :=
  { md5 := md5Sum, sha1 := sha1Sum, sha256 := sha256Sum, sha512 := sha512Sum,
    unicodeToLower := latin1ToLower, parseRFC1123 := parseRFC1123UTC }

/-- The file system and the HTTP client. -/
structure World where
  /-- Whether `os.Stat` succeeds. -/
  stat : Str → Bool
  /-- Go `os.Open` followed by reading the file, `none` for an open error. -/
  osOpen : Str → Option Str
  /-- Go `client.Get` followed by reading the body, `none` for an error. -/
  httpGet : Str → Option Str
  /-- The helper `readFile` of the repository (its source is not part of the
  two files embedded here). -/
  readFile : Str → Str

/-- What the first half of `readRepomdFile` and `readWithChecksum` leaves in
`file`: the function has returned nil, `file` is still the nil reader, or
`file` reads `contents`. -/
inductive Source where
  | failed
  | nilReader
  | reader (contents : Str)
deriving DecidableEq, Repr

/-- The `os.Stat` / `os.Open` / `client.Get` prologue shared by
`readRepomdFile` and `readWithChecksum`. -/
def openSource (w : World) (name : Str) : Source :=
  if w.stat name then
    match w.osOpen name with
    | none => .failed
    | some c => .reader c
  else if startsWith name ['h', 't', 't', 'p'] then
    match w.httpGet name with
    | none => .failed
    | some c => .reader c
  else .nilReader

/-! ## readRepomdFile -/

/-- The variables of the scan loop of `readRepomdFile`. -/
structure ScanState where
  section_ : Str
  Header : List (Str × Str)
  Data : List (Str × RepoHashFile)
deriving DecidableEq, Repr

/-- The state before the first line. -/
def ScanState.init : ScanState := { section_ := [], Header := [], Data := [] }

/-- One iteration of the scan loop; `none` is `return nil`. -/
def scanLine (st : ScanState) (line : Str) : Option ScanState :=
  if startsWith line [' '] then
    match Fields (TrimSpace line) with
    | [p0, p1, p2] =>
      match Atoi p1 with
      | none => none
      | some size =>
        match mapGet st.Data p2 with
        | some current =>
          if size ≠ current.Size then none
          else
            let entry : RepoHashFile :=
              { Checksum := current.Checksum ++ [p0],
                ChecksumType := current.ChecksumType ++ [st.section_],
                Size := current.Size }
            some { st with Data := mapSet st.Data p2 entry }
        | none =>
          let entry : RepoHashFile :=
            { Checksum := [p0], ChecksumType := [st.section_], Size := size }
          some { st with Data := mapSet st.Data p2 entry }
    | _ => none
  else
    match SplitN2 (TrimSpace line) ':' with
    | [k, v] =>
      if TrimSpace v = [] then some { st with section_ := k }
      else some { st with Header := mapSet st.Header k (TrimSpace v) }
    | _ => none

/-- The scan loop over the delivered lines. -/
def scanLoop : ScanState → List Str → Option ScanState
  | st, [] => some st
  | st, line :: rest =>
    match scanLine st line with
    | none => none
    | some st' => scanLoop st' rest

/-- The part of `readRepomdFile` after the contents are read: the scan loop,
the `Date` header and the construction of the result; `none` is `return nil`. -/
def parseRepomd (lib : Lib) (contents : Str) : Option Repomd :=
  match scanLoop ScanState.init (scanLines contents) with
  | none => none
  | some st =>
    match mapGet st.Header ['D', 'a', 't', 'e'] with
    | some val =>
      match lib.parseRFC1123 val with
      | none => none
      | some tval =>
        some { Repomd.zero with Header := st.Header, Data := st.Data,
                                Timestamp := tval, fileContents := contents }
    | none =>
      some { Repomd.zero with Header := st.Header, Data := st.Data,
                              fileContents := contents }

/-- Go `readRepomdFile`. -/
def readRepomdFile (lib : Lib) (w : World) (repomdFile : Str) : Outcome (Option Repomd) :=
  match openSource w repomdFile with
  | .failed => .ok none
  | .nilReader => .panicked
  | .reader contents => .ok (parseRepomd lib contents)

/-! ## readWithChecksum -/

/-- An OpenPGP packet as far as the worker looks at it. `IssuerKeyId` of a
`packet.Signature` is a pointer and may be nil; `HashAvailable` tells whether
`sig.Hash.New()` returns (it panics for a hash function that is not linked). -/
inductive Packet where
  | Signature (IssuerKeyId : Option Nat) (CreationTime : Time) (HashAvailable : Bool)
  | SignatureV3 (IssuerKeyId : Nat) (CreationTime : Time) (HashAvailable : Bool)
  | other
deriving DecidableEq, Repr

/-- An entity of the keyring (`openpgp.Entity`), by the id of its key and
whether the key may sign. -/
structure Entity where
  KeyId : Nat
  CanSign : Bool
deriving DecidableEq, Repr

/-- Go `packet.KeyFlagSign`. -/
def KeyFlagSign : Nat := 2

/-- The OpenPGP library. -/
structure PGP where
  /-- Go `armor.Decode`: the body of the block, `none` for an error. -/
  armorDecode : Str → Option Str
  /-- Go `packet.Read`, `none` for an error. -/
  packetRead : Str → Option Packet
  /-- Go `EntityList.KeysByIdUsage`. -/
  KeysByIdUsage : List Entity → Nat → Nat → List Entity

/-- The shared variables `latestRepomd` and `latestRepomdTime` of `main`. -/
structure Slot where
  latestRepomd : Repomd
  latestRepomdTime : Int
deriving DecidableEq, Repr

/-- The slot at the start of the race: `var latestRepomd Repomd` and
`var latestRepomdTime int64`. -/
def Slot.empty : Slot := { latestRepomd := Repomd.zero, latestRepomdTime := 0 }

/-- What the goroutines of `main` share besides the slot. `keyring` is `none`
for the nil slice. -/
structure RaceEnv where
  lib : Lib
  world : World
  pgp : PGP
  insecure : Bool
  keyring : Option (List Entity)
  repoPathBottom2 : Str

/-- The assignment at the end of the worker: the snapshot is stored with its
origin, and its time is recorded. -/
def adopt (releasePath m : Str) (dat : Repomd) : Slot :=
  { latestRepomd := { dat with path := releasePath, mirror := m },
    latestRepomdTime := dat.Timestamp.Unix }

/-- The `if !*insecure` block of the worker, after the signature file is read:
`ok none` is a `return` that abandons the mirror, `ok (some d)` falls through
to the adoption with the signature files stored in the snapshot. -/
def signatureCheck (e : RaceEnv) (releasePathGPG releasePathInGPG : Str) (dat : Repomd) :
    Outcome (Option Repomd) :=
  let gpgFile := e.world.readFile releasePathGPG
  match e.pgp.armorDecode gpgFile with
  | none => .ok none
  | some body =>
    match e.pgp.packetRead body with
    | none => .ok none
    | some p =>
      let issuer : Outcome (Option Nat) :=
        match p with
        | .Signature none _ _ => .panicked
        | .Signature (some id) _ avail => if avail then .ok (some id) else .panicked
        | .SignatureV3 id _ avail => if avail then .ok (some id) else .panicked
        | .other => .ok none
      match issuer with
      | .panicked => .panicked
      | .exited c => .exited c
      | .ok none => .ok none
      | .ok (some issuerKeyId) =>
        if issuerKeyId = 0 then .ok none
        else
          match e.keyring with
          | none => .exited 1
          | some keyring =>
            let keys := e.pgp.KeysByIdUsage keyring issuerKeyId KeyFlagSign
            if keys.length = 0 then .ok none
            else
              .ok (some { dat with gpgFileContents := gpgFile,
                                   gpgInFileContents := e.world.readFile releasePathInGPG })

/-- The variable `releasePath` of the worker for mirror `m`. -/
def releasePath (repoPathBottom2 m : Str) : Str :=
  m ++ repoPathBottom2 ++ ['/', 'R', 'e', 'l', 'e', 'a', 's', 'e']

/-- The variable `releasePathGPG` of the worker for mirror `m`. -/
def releasePathGPG (repoPathBottom2 m : Str) : Str :=
  releasePath repoPathBottom2 m ++ ['.', 'g', 'p', 'g']

/-- The variable `releasePathInGPG` of the worker for mirror `m`. -/
def releasePathInGPG (repoPathBottom2 m : Str) : Str :=
  m ++ repoPathBottom2 ++ ['/', 'I', 'n', 'R', 'e', 'l', 'e', 'a', 's', 'e']

/-- The part of the worker between `mu.Lock()` and `mu.Unlock()`, for the
snapshot `dat` read from mirror `m`. -/
def lockedSection (e : RaceEnv) (m : Str) (dat : Option Repomd) (s : Slot) : Outcome Slot :=
  match dat with
  | none => .ok s
  | some dat =>
    if dat.Timestamp.Unix > s.latestRepomdTime then
      if !e.insecure then
        match signatureCheck e (releasePathGPG e.repoPathBottom2 m)
            (releasePathInGPG e.repoPathBottom2 m) dat with
        | .panicked => .panicked
        | .exited c => .exited c
        | .ok none => .ok s
        | .ok (some dat') => .ok (adopt (releasePath e.repoPathBottom2 m) m dat')
      else .ok (adopt (releasePath e.repoPathBottom2 m) m dat)
    else .ok s

/-- The goroutine of `main` for mirror `m`: read the Release file, then the
locked section. -/
def mirrorWorker (e : RaceEnv) (m : Str) (s : Slot) : Outcome Slot :=
  match readRepomdFile e.lib e.world (releasePath e.repoPathBottom2 m) with
  | .panicked => .panicked
  | .exited c => .exited c
  | .ok dat => lockedSection e m dat s

/-- The race: the locked sections of the workers, in the order in which they
take the lock, each for the mirror and the snapshot read from it. -/
def race (e : RaceEnv) : List (Str × Option Repomd) → Slot → Outcome Slot
  | [], s => .ok s
  | (m, dat) :: rest, s =>
    match lockedSection e m dat s with
    | .panicked => .panicked
    | .exited c => .exited c
    | .ok s' => race e rest s'

/-! ## Paths (package path) -/

/-- A machine without local files on which the listed URLs are served with the
listed bodies; `readFile` gives the body as well, and the empty string for a
name that is not served. -/
def remoteWorld (files : List (Str × Str)) : World :=
  { stat := fun _ => false,
    osOpen := fun _ => none,
    httpGet := fun url => mapGet files url,
    readFile := fun name => (mapGet files name).getD [] }

/-- A stand-in for the OpenPGP library on toy signature files: the armor is the
text `sig:` in front of the body, the body is the decimal id of the issuer key
of a version 4 signature, and a key of the keyring matches an id when it has
that id and may sign. -/
def toyPGP : PGP :=
  { armorDecode := fun s => if startsWith s ['s', 'i', 'g', ':'] then some (s.drop 4) else none,
    packetRead := fun body =>
      if body ≠ [] ∧ body.all isDigit then
        some (Packet.Signature (some (digitsVal body)) Time.zero true)
      else none,
    KeysByIdUsage := fun keyring id flags =>
      keyring.filter (fun k => k.KeyId == id && (flags != KeyFlagSign || k.CanSign)) }

/-- Whether the worker lets the snapshot `dat` of mirror `m` through its
signature block: the check is skipped, or it falls through to the adoption. -/
def accepted (e : RaceEnv) (m : Str) (dat : Repomd) : Bool :=
  e.insecure ||
    match signatureCheck e (releasePathGPG e.repoPathBottom2 m)
        (releasePathInGPG e.repoPathBottom2 m) dat with
    | .ok (some _) => true
    | _ => false

/-- A snapshot with the given Release bytes and Unix time. -/
def snapshotAt (contents : Str) (unix : Int) : Repomd :=
  { Repomd.zero with fileContents := contents, Timestamp := { sec := unix, nsec := 0 } }

/-- A race that runs with signature checks off. -/
def insecureEnv : RaceEnv :=
  { lib := stdLib, world := remoteWorld [], pgp := toyPGP, insecure := true,
    keyring := none, repoPathBottom2 := "/dists/stable".toList }

/-- A race with signature checks on: the keyring holds the signing key 7, the
mirrors `http://a`, `http://c` and `http://d` serve the signature file `sig:7`,
and mirror `http://b` the signature file `sig:9` of a key that is not in the
keyring. -/
def secureEnv : RaceEnv :=
  { lib := stdLib,
    world := remoteWorld
      [("http://a/dists/stable/Release.gpg".toList, "sig:7".toList),
       ("http://b/dists/stable/Release.gpg".toList, "sig:9".toList),
       ("http://c/dists/stable/Release.gpg".toList, "sig:7".toList),
       ("http://d/dists/stable/Release.gpg".toList, "sig:7".toList)],
    pgp := toyPGP, insecure := false,
    keyring := some [{ KeyId := 7, CanSign := true }],
    repoPathBottom2 := "/dists/stable".toList }

/-- A stand-in for the OpenPGP library on toy signature files that carry what
was signed: the armor is the text `sig:` in front of the body, and the body is
the decimal id of the issuer key of a version 4 signature, a colon, and the
signed bytes. -/
def boundPGP : PGP :=
  { armorDecode := toyPGP.armorDecode,
    packetRead := fun body =>
      match SplitN2 body ':' with
      | [ds, _] =>
        if ds ≠ [] ∧ ds.all isDigit then
          some (Packet.Signature (some (digitsVal ds)) Time.zero true)
        else none
      | _ => none,
    KeysByIdUsage := toyPGP.KeysByIdUsage }

/-- Whether the toy detached signature `gpgFile` verifies over `bytes` under a
signing key of `keyring`: it names a key of the keyring and the bytes it
carries are `bytes`. The worker has no counterpart of this check. -/
def toyVerifies (keyring : List Entity) (gpgFile bytes : Str) : Bool :=
  match boundPGP.armorDecode gpgFile with
  | none => false
  | some body =>
    match SplitN2 body ':' with
    | [ds, signed] =>
      ds ≠ [] && ds.all isDigit &&
        (boundPGP.KeysByIdUsage keyring (digitsVal ds) KeyFlagSign).length != 0 &&
        signed == bytes
    | _ => false

/-- The Release file that key 7 signed. -/
def signedRelease : Str := "Origin: Debian\nDate: Sat, 02 Nov 2024 08:00:00 UTC\n".toList

/-- Another Release file, which nobody signed. -/
def forgedRelease : Str := "Origin: Mallory\nDate: Sat, 02 Nov 2024 08:00:00 UTC\n".toList

/-- The detached signature of key 7 over `signedRelease`. -/
def signedReleaseGPG : Str := "sig:7:".toList ++ signedRelease

/-- A race with signature checks on and key 7 in the keyring, in which mirror
`http://a` serves `forgedRelease` as its Release file, next to the detached
signature of `signedRelease`. -/
def forgedEnv : RaceEnv :=
  { lib := stdLib,
    world := remoteWorld
      [("http://a/dists/stable/Release".toList, forgedRelease),
       ("http://a/dists/stable/Release.gpg".toList, signedReleaseGPG)],
    pgp := boundPGP, insecure := false,
    keyring := some [{ KeyId := 7, CanSign := true }],
    repoPathBottom2 := "/dists/stable".toList }

/-- The checksum record of a line, as the specification words it: a line with
a leading space and exactly three whitespace-separated tokens, the checksum,
the numeric size and the path. -/
def recordOf (line : Str) : Option (Str × Int × Str) :=
  if startsWith line [' '] then
    match Fields (TrimSpace line) with
    | [p0, p1, p2] =>
      match Atoi p1 with
      | some size => some (p0, size, p2)
      | none => none
    | _ => none
  else none

/-- The checksum section a line announces, as the specification words it: a
line without leading space of the form `Key:` with an empty value. -/
def sectionOf (line : Str) : Option Str :=
  if startsWith line [' '] then none
  else
    match SplitN2 (TrimSpace line) ':' with
    | [k, v] => if TrimSpace v = [] then some k else none
    | _ => none

/-- The pairs (checksum, section) of the record lines for path `p`, in the
order of the lines, each record under the section announced last before it;
`sec` is the section at the first line. -/
def pairsFor (p : Str) : Str → List Str → List (Str × Str)
  | _, [] => []
  | sec, line :: rest =>
    match recordOf line with
    | some (ck, _, path) =>
      if path = p then (ck, sec) :: pairsFor p sec rest else pairsFor p sec rest
    | none =>
      match sectionOf line with
      | some k => pairsFor p k rest
      | none => pairsFor p sec rest

/-- The pairs (checksum, algorithm label) that the file table holds for path
`p`: the two lists of its entry side by side. -/
def pairsIn (d : List (Str × RepoHashFile)) (p : Str) : List (Str × Str) :=
  match mapGet d p with
  | some e => List.zip e.Checksum e.ChecksumType
  | none => []

/-- Every entry of a file table has two lists of the same length, at least 1. -/
def Aligned (d : List (Str × RepoHashFile)) : Prop :=
  ∀ p e, mapGet d p = some e →
    e.Checksum.length = e.ChecksumType.length ∧ 1 ≤ e.Checksum.length

/-- A snapshot that is not newer than the recorded time leaves the slot as it
is, whatever its signature. -/
theorem lockedSection_not_newer (e : RaceEnv) (m : Str) (dat : Repomd) (s : Slot)
    (h : dat.Timestamp.Unix ≤ s.latestRepomdTime) :
    lockedSection e m (some dat) s = .ok s := by
  unfold lockedSection
  simp only
  rw [if_neg (by omega)]

/-- When the keyring has no signing key for the issuer of the signature, the
signature block returns, panics on an unavailable hash, or exits on a nil
keyring; it never falls through to the adoption. -/
theorem signatureCheck_no_key (e : RaceEnv) (gpgPath inPath : Str) (dat : Repomd)
    (body : Str) (p : Packet) (id : Nat) (t : Time) (avail : Bool)
    (harmor : e.pgp.armorDecode (e.world.readFile gpgPath) = some body)
    (hpacket : e.pgp.packetRead body = some p)
    (hissuer : p = .Signature (some id) t avail ∨ p = .SignatureV3 id t avail)
    (hnokey : ∀ kr, e.keyring = some kr → e.pgp.KeysByIdUsage kr id KeyFlagSign = []) :
    (avail = true ∧ (id = 0 ∨ e.keyring ≠ none) ∧
        signatureCheck e gpgPath inPath dat = .ok none) ∨
    (avail = false ∧ signatureCheck e gpgPath inPath dat = .panicked) ∨
    (avail = true ∧ id ≠ 0 ∧ e.keyring = none ∧
        signatureCheck e gpgPath inPath dat = .exited 1) := by
  unfold signatureCheck
  simp only [harmor, hpacket]
  cases avail
  · rcases hissuer with rfl | rfl <;> simp
  · by_cases hid : id = 0
    · rcases hissuer with rfl | rfl <;> simp [hid]
    · cases hk : e.keyring with
      | none => rcases hissuer with rfl | rfl <;> simp [hid]
      | some kr =>
        have := hnokey kr hk
        rcases hissuer with rfl | rfl <;> simp [this, hid]

/-- What the signature block hands to the adoption is the snapshot with the
two signature files stored in it, nothing else changed. -/
theorem signatureCheck_some (e : RaceEnv) (gpgPath inPath : Str) (dat d : Repomd)
    (h : signatureCheck e gpgPath inPath dat = .ok (some d)) :
    d = { dat with gpgFileContents := e.world.readFile gpgPath,
                   gpgInFileContents := e.world.readFile inPath } := by
  unfold signatureCheck at h
  simp only at h
  split at h
  · simp at h
  · split at h
    · simp at h
    · split at h
      · simp at h
      · simp at h
      · simp at h
      · split at h
        · simp at h
        · split at h
          · simp at h
          · split at h
            · simp at h
            · simp at h
              exact h.symm

/-- The locked section of a worker whose snapshot is let through the signature
block is a compare-and-adopt: one slot value `sW`, fixed by the mirror and the
snapshot, is written exactly when the snapshot is newer than the recorded
time. -/
theorem lockedSection_accepted (e : RaceEnv) (m : Str) (dat : Repomd)
    (hacc : accepted e m dat = true) :
    ∃ sW : Slot, sW.latestRepomdTime = dat.Timestamp.Unix ∧
      sW.latestRepomd.mirror = m ∧ sW.latestRepomd.path = releasePath e.repoPathBottom2 m ∧
      sW.latestRepomd.Timestamp = dat.Timestamp ∧
      sW.latestRepomd.fileContents = dat.fileContents ∧
      sW.latestRepomd.Data = dat.Data ∧ sW.latestRepomd.Header = dat.Header ∧
      ∀ s : Slot, lockedSection e m (some dat) s =
        .ok (if dat.Timestamp.Unix > s.latestRepomdTime then sW else s) := by
  unfold accepted at hacc
  cases hi : e.insecure with
  | true =>
    refine ⟨adopt (releasePath e.repoPathBottom2 m) m dat, rfl, rfl, rfl, rfl, rfl, rfl, rfl, ?_⟩
    intro s
    unfold lockedSection
    simp only [hi]
    split <;> simp
  | false =>
    rw [hi] at hacc
    simp only [Bool.false_or] at hacc
    cases hc : signatureCheck e (releasePathGPG e.repoPathBottom2 m)
        (releasePathInGPG e.repoPathBottom2 m) dat with
    | panicked => rw [hc] at hacc; simp at hacc
    | exited c => rw [hc] at hacc; simp at hacc
    | ok o =>
      cases o with
      | none => rw [hc] at hacc; simp at hacc
      | some d =>
        have hd := signatureCheck_some e _ _ dat d hc
        refine ⟨adopt (releasePath e.repoPathBottom2 m) m d, ?_, rfl, rfl, ?_, ?_, ?_, ?_, ?_⟩
        · rw [hd]; rfl
        · rw [hd]; rfl
        · rw [hd]; rfl
        · rw [hd]; rfl
        · rw [hd]; rfl
        · intro s
          unfold lockedSection
          simp only [hi, hc]
          split <;> simp

/-- The race over snapshots that are all let through the signature block ends
with the slot it started with when no snapshot is newer than the recorded
time, and otherwise with the slot written by a snapshot of maximal Unix
time. -/
theorem race_accepted (e : RaceEnv) (order : List (Str × Repomd))
    (hacc : ∀ c ∈ order, accepted e c.1 c.2 = true) (s : Slot) :
    ∃ sf, race e (order.map (fun c => (c.1, some c.2))) s = .ok sf ∧
      ((sf = s ∧ ∀ c ∈ order, c.2.Timestamp.Unix ≤ s.latestRepomdTime) ∨
       (∃ c ∈ order, s.latestRepomdTime < c.2.Timestamp.Unix ∧
          (∀ c2 ∈ order, c2.2.Timestamp.Unix ≤ c.2.Timestamp.Unix) ∧
          ∀ s0 : Slot, s0.latestRepomdTime < c.2.Timestamp.Unix →
            lockedSection e c.1 (some c.2) s0 = .ok sf)) := by
  induction order generalizing s with
  | nil => exact ⟨s, rfl, Or.inl ⟨rfl, by simp⟩⟩
  | cons c rest ih =>
    obtain ⟨sW, hWt, -, -, -, -, -, -, hW⟩ :=
      lockedSection_accepted e c.1 c.2 (hacc c (List.mem_cons_self _ _))
    have hrest : ∀ c2 ∈ rest, accepted e c2.1 c2.2 = true :=
      fun c2 h2 => hacc c2 (List.mem_cons_of_mem _ h2)
    by_cases hnew : c.2.Timestamp.Unix > s.latestRepomdTime
    · obtain ⟨sf, hsf, hcase⟩ := ih hrest sW
      refine ⟨sf, ?_, ?_⟩
      · simp only [List.map_cons, race, hW s, if_pos hnew]
        exact hsf
      · right
        rcases hcase with ⟨heq, hle⟩ | ⟨c1, hc1, hlt, hmax, hlock⟩
        · refine ⟨c, List.mem_cons_self _ _, hnew, ?_, ?_⟩
          · intro c2 h2
            rcases List.mem_cons.mp h2 with rfl | h2
            · exact le_refl _
            · have := hle c2 h2; omega
          · intro s0 h0
            rw [hW s0, if_pos h0, heq]
        · refine ⟨c1, List.mem_cons_of_mem _ hc1, by omega, ?_, hlock⟩
          intro c2 h2
          rcases List.mem_cons.mp h2 with rfl | h2
          · omega
          · exact hmax c2 h2
    · obtain ⟨sf, hsf, hcase⟩ := ih hrest s
      refine ⟨sf, ?_, ?_⟩
      · simp only [List.map_cons, race, hW s, if_neg hnew]
        exact hsf
      · rcases hcase with ⟨heq, hle⟩ | ⟨c1, hc1, hlt, hmax, hlock⟩
        · left
          refine ⟨heq, ?_⟩
          intro c2 h2
          rcases List.mem_cons.mp h2 with rfl | h2
          · omega
          · exact hle c2 h2
        · right
          refine ⟨c1, List.mem_cons_of_mem _ hc1, hlt, ?_, hlock⟩
          intro c2 h2
          rcases List.mem_cons.mp h2 with rfl | h2
          · omega
          · exact hmax c2 h2

/-- Whether the signature block abandons the mirror, panics or exits does not
depend on the snapshot: the Release bytes are not an input of the check. -/
theorem signatureCheck_ignores_content (e : RaceEnv) (gpgPath inPath : Str) (dat1 dat2 : Repomd) :
    (signatureCheck e gpgPath inPath dat1 = .ok none ↔
      signatureCheck e gpgPath inPath dat2 = .ok none) ∧
    (signatureCheck e gpgPath inPath dat1 = .panicked ↔
      signatureCheck e gpgPath inPath dat2 = .panicked) ∧
    (∀ c, signatureCheck e gpgPath inPath dat1 = .exited c ↔
      signatureCheck e gpgPath inPath dat2 = .exited c) := by
  unfold signatureCheck
  simp only
  cases h1 : e.pgp.armorDecode (e.world.readFile gpgPath) with
  | none => simp
  | some body =>
    simp only
    cases h2 : e.pgp.packetRead body with
    | none => simp
    | some p =>
      simp only
      cases p with
      | other => simp
      | Signature i t a =>
        cases i <;> cases a <;> (try simp)
        all_goals repeat' (first | split | simp_all)
      | SignatureV3 i t a =>
        cases a <;> (try simp)
        all_goals repeat' (first | split | simp_all)

/-- Claim C1, as stated, fails in two ways. First, a well-formed Release file
without a Date header parses to a snapshot with the zero time, whose Unix time
is negative; as the only candidate it is never adopted, because the empty slot
is the recorded time 0 and the worker adopts only what is greater. Second, two
snapshots whose Date headers differ only in the fractional second have
distinct timestamps and equal Unix times; the worker compares Unix times, so
the one that takes the lock first is kept although the other is later. -/
theorem freshness_counterexample :
    ((parseRepomd stdLib "Origin: Debian\n".toList).isSome = true ∧
      race insecureEnv [("http://a".toList, parseRepomd stdLib "Origin: Debian\n".toList)]
        Slot.empty = .ok Slot.empty) ∧
    ((parseRepomd stdLib "Date: Sat, 02 Nov 2024 08:00:00.2 UTC\n".toList).map
        (fun d => d.Timestamp) = some { sec := 1730534400, nsec := 200000000 } ∧
     (parseRepomd stdLib "Date: Sat, 02 Nov 2024 08:00:00.7 UTC\n".toList).map
        (fun d => d.Timestamp) = some { sec := 1730534400, nsec := 700000000 } ∧
     (∃ s, race insecureEnv
        [("http://a".toList, parseRepomd stdLib "Date: Sat, 02 Nov 2024 08:00:00.2 UTC\n".toList),
         ("http://b".toList, parseRepomd stdLib "Date: Sat, 02 Nov 2024 08:00:00.7 UTC\n".toList)]
        Slot.empty = .ok s ∧ s.latestRepomd.mirror = "http://a".toList ∧
        s.latestRepomd.Timestamp = { sec := 1730534400, nsec := 200000000 })) := by
  refine ⟨⟨by decide, by decide⟩, by decide, by decide, ?_⟩
  refine ⟨_, rfl, by decide, by decide⟩

/-- Claim C1, amended: for every non-empty set of snapshots that the worker
lets through its signature block, with pairwise distinct Unix times of which
the greatest is positive, and for every order in which the workers take the
lock, the race from the empty slot ends with the snapshot of the greatest
timestamp in the slot, stored with its mirror and path, and with its Unix time
recorded; the final slot is the one that snapshot alone would have written. -/
theorem freshness_determinism (e : RaceEnv) (cands order : List (Str × Repomd))
    (best : Str × Repomd)
    (hperm : order.Perm cands)
    (hvalid : ∀ c ∈ cands, accepted e c.1 c.2 = true)
    (hdistinct : (cands.map (fun c => c.2.Timestamp.Unix)).Nodup)
    (hbest : best ∈ cands)
    (hmax : ∀ c ∈ cands, c.2.Timestamp.Unix ≤ best.2.Timestamp.Unix)
    (hpos : 0 < best.2.Timestamp.Unix) :
    ∃ sf : Slot, race e (order.map (fun c => (c.1, some c.2))) Slot.empty = .ok sf ∧
      lockedSection e best.1 (some best.2) Slot.empty = .ok sf ∧
      sf.latestRepomdTime = best.2.Timestamp.Unix ∧
      sf.latestRepomd.Timestamp = best.2.Timestamp ∧
      sf.latestRepomd.mirror = best.1 ∧
      sf.latestRepomd.path = releasePath e.repoPathBottom2 best.1 ∧
      sf.latestRepomd.fileContents = best.2.fileContents ∧
      sf.latestRepomd.Data = best.2.Data ∧
      sf.latestRepomd.Header = best.2.Header := by
  have hacc : ∀ c ∈ order, accepted e c.1 c.2 = true :=
    fun c hc => hvalid c (hperm.mem_iff.mp hc)
  obtain ⟨sf, hsf, hcase⟩ := race_accepted e order hacc Slot.empty
  have hbo : best ∈ order := hperm.mem_iff.mpr hbest
  rcases hcase with ⟨-, hle⟩ | ⟨c, hc, hlt, hcmax, hlock⟩
  · have := hle best hbo
    have h0 : Slot.empty.latestRepomdTime = 0 := rfl
    omega
  · have hcc : c ∈ cands := hperm.mem_iff.mp hc
    have h1 := hmax c hcc
    have h2 := hcmax best hbo
    have hts : c.2.Timestamp.Unix = best.2.Timestamp.Unix := by omega
    have hcb : c = best := List.inj_on_of_nodup_map hdistinct hcc hbest hts
    subst hcb
    obtain ⟨sW, hWt, hWm, hWp, hWts, hWf, hWd, hWh, hW⟩ :=
      lockedSection_accepted e c.1 c.2 (hvalid c hcc)
    have hl := hlock Slot.empty hlt
    have := hW Slot.empty
    rw [if_pos hlt, hl] at this
    injection this with this
    subst this
    exact ⟨sf, hsf, hl, hWt, hWts, hWm, hWp, hWf, hWd, hWh⟩

/-- Claim C1, amended, on three signed mirrors with Unix times 100, 200 and
300 taking the lock in the order 200, 300, 100: the slot ends with the third. -/
theorem freshness_determinism_witness :
    ∃ sf : Slot,
      race secureEnv
        [("http://c".toList, some (snapshotAt "second".toList 200)),
         ("http://d".toList, some (snapshotAt "third".toList 300)),
         ("http://a".toList, some (snapshotAt "first".toList 100))] Slot.empty = .ok sf ∧
      sf.latestRepomd.mirror = "http://d".toList ∧
      sf.latestRepomd.fileContents = "third".toList := by
  obtain ⟨sf, h1, -, -, -, h5, -, h7, -, -⟩ := freshness_determinism secureEnv
    [("http://a".toList, snapshotAt "first".toList 100),
     ("http://c".toList, snapshotAt "second".toList 200),
     ("http://d".toList, snapshotAt "third".toList 300)]
    [("http://c".toList, snapshotAt "second".toList 200),
     ("http://d".toList, snapshotAt "third".toList 300),
     ("http://a".toList, snapshotAt "first".toList 100)]
    ("http://d".toList, snapshotAt "third".toList 300)
    (by decide) (by decide) (by decide) (by decide) (by decide) (by decide)
  exact ⟨sf, h1, h5, h7⟩

/-- Claim C2 fails on the code: the signature block looks up the issuer key id
of the detached signature in the keyring and never verifies the signature over
the Release bytes. Mirror `http://a` serves the dated Release file
`forgedRelease` next to the detached signature that key 7 of the keyring made
over `signedRelease`: the signature verifies over `signedRelease` and does not
verify over `forgedRelease`, and the worker, with signature checks on, reads
`forgedRelease`, finds key 7 and adopts the snapshot from the empty slot. -/
theorem unverified_release_adopted :
    forgedEnv.insecure = false ∧
    toyVerifies [{ KeyId := 7, CanSign := true }] signedReleaseGPG signedRelease = true ∧
    toyVerifies [{ KeyId := 7, CanSign := true }] signedReleaseGPG forgedRelease = false ∧
    (∃ dat, readRepomdFile forgedEnv.lib forgedEnv.world "http://a/dists/stable/Release".toList =
        .ok (some dat) ∧ dat.fileContents = forgedRelease ∧
        dat.Timestamp = { sec := 1730534400, nsec := 0 }) ∧
    (∃ s, mirrorWorker forgedEnv "http://a".toList Slot.empty = .ok s ∧
      s.latestRepomd.fileContents = forgedRelease ∧
      s.latestRepomd.gpgFileContents = signedReleaseGPG ∧
      s.latestRepomd.Header =
        [("Origin".toList, "Mallory".toList),
         ("Date".toList, "Sat, 02 Nov 2024 08:00:00 UTC".toList)] ∧
      s.latestRepomd.mirror = "http://a".toList ∧
      s.latestRepomd.path = "http://a/dists/stable/Release".toList ∧
      s.latestRepomdTime = 1730534400) := by
  refine ⟨rfl, by decide, by decide, ⟨_, rfl, by decide, by decide⟩, ?_⟩
  refine ⟨_, rfl, by decide, by decide, by decide, by decide, by decide, by decide⟩

/-- Claim C4: with signature checks on, when the detached signature of the
snapshot names an issuer key id for which the keyring lookup returns no
signing key, the locked section of the worker never ends with a changed slot,
whatever the slot held (the empty slot included) and however new the snapshot
is; and when the hash of the signature is available and the keyring is not
nil, it returns with the slot unchanged. -/
theorem signature_gate (e : RaceEnv) (m : Str) (dat : Repomd) (s : Slot)
    (body : Str) (p : Packet) (id : Nat) (t : Time) (avail : Bool)
    (hsecure : e.insecure = false)
    (harmor : e.pgp.armorDecode (e.world.readFile (releasePathGPG e.repoPathBottom2 m)) = some body)
    (hpacket : e.pgp.packetRead body = some p)
    (hissuer : p = .Signature (some id) t avail ∨ p = .SignatureV3 id t avail)
    (hnokey : ∀ kr, e.keyring = some kr → e.pgp.KeysByIdUsage kr id KeyFlagSign = []) :
    (∀ s', lockedSection e m (some dat) s = .ok s' → s' = s) ∧
    (avail = true → e.keyring ≠ none → lockedSection e m (some dat) s = .ok s) := by
  have hcheck := signatureCheck_no_key e (releasePathGPG e.repoPathBottom2 m)
    (releasePathInGPG e.repoPathBottom2 m) dat body p id t avail harmor hpacket hissuer hnokey
  unfold lockedSection
  simp only [hsecure]
  by_cases hnew : dat.Timestamp.Unix > s.latestRepomdTime
  · rw [if_pos hnew]
    rcases hcheck with ⟨_, _, h⟩ | ⟨ha, h⟩ | ⟨_, _, hk, h⟩
    · simp [h]
    · simp [h, ha]
    · simp [h, hk]
  · rw [if_neg hnew]; simp

/-- Claim C4 on the empty slot: the only candidate, well-formed and dated,
signed by key 9 while the keyring holds key 7 only, is not adopted. -/
theorem signature_gate_witness :
    lockedSection secureEnv "http://b".toList (some (snapshotAt "Origin: Debian\n".toList 1730534400))
      Slot.empty = .ok Slot.empty :=
  (signature_gate secureEnv "http://b".toList (snapshotAt "Origin: Debian\n".toList 1730534400)
    Slot.empty "9".toList (Packet.Signature (some 9) Time.zero true) 9 Time.zero true
    (by decide) (by decide) (by decide) (Or.inl rfl)
    (by intro kr hkr; cases hkr; decide)).2 rfl (by decide)

/-- Claim C6: when the slot holds an adopted snapshot and a later candidate
has the same timestamp, the locked section of the worker, and the worker as a
whole, leave the slot unchanged: same snapshot, same mirror and path, same
recorded time. -/
theorem tie_stability (e : RaceEnv) (m path0 m0 : Str) (held dat : Repomd)
    (htie : dat.Timestamp = held.Timestamp) :
    lockedSection e m (some dat) (adopt path0 m0 held) = .ok (adopt path0 m0 held) ∧
    (readRepomdFile e.lib e.world (releasePath e.repoPathBottom2 m) = .ok (some dat) →
      mirrorWorker e m (adopt path0 m0 held) = .ok (adopt path0 m0 held)) := by
  have h : lockedSection e m (some dat) (adopt path0 m0 held) = .ok (adopt path0 m0 held) :=
    lockedSection_not_newer e m dat _ (by simp [adopt, htie])
  refine ⟨h, fun hread => ?_⟩
  unfold mirrorWorker
  rw [hread]
  exact h

/-- Claim C6 on two snapshots of the same second from mirrors a and b. -/
theorem tie_stability_witness :
    lockedSection insecureEnv "http://b".toList (some (snapshotAt "later".toList 1730534400))
        (adopt "http://a/dists/stable/Release".toList "http://a".toList
          (snapshotAt "earlier".toList 1730534400)) =
      .ok (adopt "http://a/dists/stable/Release".toList "http://a".toList
          (snapshotAt "earlier".toList 1730534400)) :=
  (tie_stability insecureEnv "http://b".toList "http://a/dists/stable/Release".toList
    "http://a".toList (snapshotAt "earlier".toList 1730534400)
    (snapshotAt "later".toList 1730534400) (by decide)).1

/-! ## readWithChecksum -/

/-- Reading back the key just written. -/
theorem mapGet_mapSet_same {β : Type} (d : List (Str × β)) (k : Str) (v : β) :
    mapGet (mapSet d k v) k = some v := by
  induction d with
  | nil => simp [mapSet, mapGet]
  | cons kv r ih =>
    obtain ⟨k', v'⟩ := kv
    by_cases h : k' = k
    · simp [mapSet, mapGet, h]
    · simp [mapSet, mapGet, h, ih]

/-- Writing a key leaves the other keys as they are. -/
theorem mapGet_mapSet_other {β : Type} (d : List (Str × β)) (k p : Str) (v : β) (h : k ≠ p) :
    mapGet (mapSet d k v) p = mapGet d p := by
  induction d with
  | nil => simp [mapSet, mapGet, h]
  | cons kv r ih =>
    obtain ⟨k', v'⟩ := kv
    by_cases hk : k' = k
    · subst hk
      simp [mapSet, mapGet, h]
    · simp only [mapSet, hk, if_false, mapGet, ih]

/-- The three ways an iteration of the scan loop goes on. -/
theorem scanLine_cases (st st' : ScanState) (line : Str) (h : scanLine st line = some st') :
    (∃ ck size p, recordOf line = some (ck, size, p) ∧ st'.section_ = st.section_ ∧
        st'.Header = st.Header ∧
        ((∃ cur, mapGet st.Data p = some cur ∧ cur.Size = size ∧
            st'.Data = mapSet st.Data p
              { Checksum := cur.Checksum ++ [ck],
                ChecksumType := cur.ChecksumType ++ [st.section_], Size := cur.Size }) ∨
         (mapGet st.Data p = none ∧
            st'.Data = mapSet st.Data p
              { Checksum := [ck], ChecksumType := [st.section_], Size := size }))) ∨
    (recordOf line = none ∧ st'.Data = st.Data ∧
      ((∃ k, sectionOf line = some k ∧ st'.section_ = k ∧ st'.Header = st.Header) ∨
       (sectionOf line = none ∧ st'.section_ = st.section_))) := by
  unfold scanLine at h
  unfold recordOf sectionOf
  by_cases hp : startsWith line [' '] = true
  · simp only [hp, if_true] at h ⊢
    left
    split at h
    · rename_i p0 p1 p2 hf
      cases ha : Atoi p1 with
      | none => simp [ha] at h
      | some size =>
        simp only [ha] at h
        refine ⟨p0, size, p2, by simp [hf, ha], ?_⟩
        cases hg : mapGet st.Data p2 with
        | none =>
          simp only [hg] at h
          injection h with h
          subst h
          exact ⟨rfl, rfl, Or.inr ⟨rfl, rfl⟩⟩
        | some cur =>
          simp only [hg] at h
          by_cases hs : size = cur.Size
          · simp only [hs, ne_eq, not_true_eq_false, if_false] at h
            injection h with h
            subst h
            exact ⟨rfl, rfl, Or.inl ⟨cur, rfl, hs.symm, rfl⟩⟩
          · simp [hs] at h
    · simp at h
  · have hp' : startsWith line [' '] = false := by simpa using hp
    simp only [hp', Bool.false_eq_true, if_false] at h ⊢
    right
    split at h
    · rename_i k v hsplit
      by_cases hv : TrimSpace v = []
      · simp only [hv, if_true] at h
        injection h with h
        subst h
        simp [hsplit, hv]
      · simp only [hv, if_false] at h
        injection h with h
        subst h
        simp [hsplit, hv]
    · simp at h

/-- The keys after a write: the same keys, or one more at the end. -/
theorem mapSet_keys {β : Type} (d : List (Str × β)) (k : Str) (v : β) :
    (mapSet d k v).map Prod.fst =
      if k ∈ d.map Prod.fst then d.map Prod.fst else d.map Prod.fst ++ [k] := by
  induction d with
  | nil => simp [mapSet]
  | cons kv r ih =>
    obtain ⟨k', v'⟩ := kv
    by_cases h : k' = k
    · subst h
      simp only [mapSet, if_true, List.map_cons, List.mem_cons, true_or]
    · have h' : ¬ k = k' := fun e => h e.symm
      simp only [mapSet, h, if_false, List.map_cons, ih, List.mem_cons, h', false_or]
      split <;> simp

/-- A write keeps the keys distinct. -/
theorem mapSet_nodup {β : Type} (d : List (Str × β)) (k : Str) (v : β)
    (h : (d.map Prod.fst).Nodup) : ((mapSet d k v).map Prod.fst).Nodup := by
  rw [mapSet_keys]
  split
  · exact h
  · rename_i hk
    refine List.Nodup.append h (List.nodup_singleton k) ?_
    intro a ha hb
    rw [List.mem_singleton] at hb
    subst hb
    exact hk ha

/-- With distinct keys, a binding of the list is what the lookup gives. -/
theorem mapGet_of_mem {β : Type} (d : List (Str × β)) (k : Str) (v : β)
    (hn : (d.map Prod.fst).Nodup) (h : (k, v) ∈ d) : mapGet d k = some v := by
  induction d with
  | nil => simp at h
  | cons kv r ih =>
    obtain ⟨k', v'⟩ := kv
    simp only [List.map_cons, List.nodup_cons] at hn
    rcases List.mem_cons.mp h with heq | hmem
    · injection heq with h1 h2
      subst h1; subst h2
      simp [mapGet]
    · have hne : k' ≠ k := by
        intro e
        subst e
        exact hn.1 (List.mem_map.mpr ⟨(k', v), hmem, rfl⟩)
      simp only [mapGet, hne, if_false]
      exact ih hn.2 hmem

/-- What the lookup gives is a binding of the list. -/
theorem mem_of_mapGet {β : Type} (d : List (Str × β)) (k : Str) (v : β)
    (h : mapGet d k = some v) : (k, v) ∈ d := by
  induction d with
  | nil => simp [mapGet] at h
  | cons kv r ih =>
    obtain ⟨k', v'⟩ := kv
    by_cases hk : k' = k
    · subst hk
      simp only [mapGet, if_true] at h
      injection h with h
      subst h
      exact List.mem_cons_self _ _
    · simp only [mapGet, hk, if_false] at h
      exact List.mem_cons_of_mem _ (ih h)

/-- One iteration keeps the lists of every entry aligned and appends, for the
path of a record line, the pair of the line. -/
theorem scanLine_pairs (st st' : ScanState) (line : Str) (h : scanLine st line = some st')
    (ha : Aligned st.Data) :
    Aligned st'.Data ∧
    ∀ p, pairsIn st'.Data p ++ pairsFor p st'.section_ [] =
      pairsIn st.Data p ++ pairsFor p st.section_ [line] := by
  rcases scanLine_cases st st' line h with
    ⟨ck, size, q, hrec, hsec, -, hdata⟩ | ⟨hrec, hdata, hsec⟩
  · rcases hdata with ⟨cur, hcur, -, hd⟩ | ⟨hnone, hd⟩
    · have hal := ha q cur hcur
      constructor
      · intro p e hp
        rw [hd] at hp
        by_cases hq : q = p
        · subst hq
          rw [mapGet_mapSet_same] at hp
          injection hp with hp
          subst hp
          simp only [List.length_append, List.length_singleton]
          omega
        · rw [mapGet_mapSet_other _ _ _ _ hq] at hp
          exact ha p e hp
      · intro p
        simp only [pairsFor, hrec, List.append_nil]
        by_cases hq : q = p
        · subst hq
          simp only [pairsIn, hd, mapGet_mapSet_same, hcur, if_true]
          rw [List.zip_append hal.1]
          simp
        · simp only [pairsIn, hd, mapGet_mapSet_other _ _ _ _ hq, hq, if_false, List.append_nil]
    · constructor
      · intro p e hp
        rw [hd] at hp
        by_cases hq : q = p
        · subst hq
          rw [mapGet_mapSet_same] at hp
          injection hp with hp
          subst hp
          simp
        · rw [mapGet_mapSet_other _ _ _ _ hq] at hp
          exact ha p e hp
      · intro p
        simp only [pairsFor, hrec, List.append_nil]
        by_cases hq : q = p
        · subst hq
          simp [pairsIn, hd, mapGet_mapSet_same, hnone]
        · simp only [pairsIn, hd, mapGet_mapSet_other _ _ _ _ hq, hq, if_false, List.append_nil]
  · constructor
    · rw [hdata]; exact ha
    · intro p
      rcases hsec with ⟨k, hk, -, -⟩ | ⟨hk, -⟩ <;> simp [pairsFor, hrec, hk, pairsIn, hdata]

/-- The pairs of a line and of the lines after it, the section being the one
the iteration leaves. -/
theorem pairsFor_cons (p sec : Str) (line : Str) (rest : List Str) (st' : ScanState)
    (st : ScanState) (hs : st.section_ = sec) (h : scanLine st line = some st') :
    pairsFor p sec (line :: rest) = pairsFor p sec [line] ++ pairsFor p st'.section_ rest := by
  rcases scanLine_cases st st' line h with
    ⟨ck, size, q, hrec, hsec, -, -⟩ | ⟨hrec, -, hsec⟩
  · simp only [pairsFor, hrec, hsec, hs]
    split <;> simp
  · rcases hsec with ⟨k, hk, hk', -⟩ | ⟨hk, hk'⟩ <;> simp [pairsFor, hrec, hk, hk', hs]

/-- The scan loop keeps the lists of every entry aligned and appends to the
pairs of each path the pairs of its record lines, in order. -/
theorem scanLoop_pairs (lines : List Str) (st st' : ScanState)
    (h : scanLoop st lines = some st') (ha : Aligned st.Data) :
    Aligned st'.Data ∧
    ∀ p, pairsIn st'.Data p = pairsIn st.Data p ++ pairsFor p st.section_ lines := by
  induction lines generalizing st with
  | nil =>
    simp only [scanLoop] at h
    injection h with h
    subst h
    exact ⟨ha, fun p => by simp [pairsFor]⟩
  | cons line rest ih =>
    simp only [scanLoop] at h
    cases hl : scanLine st line with
    | none => simp [hl] at h
    | some st1 =>
      simp only [hl] at h
      obtain ⟨ha1, hp1⟩ := scanLine_pairs st st1 line hl ha
      obtain ⟨ha2, hp2⟩ := ih st1 h ha1
      refine ⟨ha2, fun p => ?_⟩
      have h1 := hp1 p
      simp only [pairsFor, List.append_nil] at h1
      rw [hp2 p, pairsFor_cons p st.section_ line rest st1 st rfl hl, ← List.append_assoc]
      congr 1

/-- One iteration keeps the keys of the file table distinct. -/
theorem scanLine_nodup (st st' : ScanState) (line : Str) (h : scanLine st line = some st')
    (hn : (st.Data.map Prod.fst).Nodup) : (st'.Data.map Prod.fst).Nodup := by
  rcases scanLine_cases st st' line h with
    ⟨ck, size, q, -, -, -, hdata⟩ | ⟨-, hdata, -⟩
  · rcases hdata with ⟨cur, -, -, hd⟩ | ⟨-, hd⟩ <;> rw [hd] <;> exact mapSet_nodup _ _ _ hn
  · rw [hdata]; exact hn

/-- The scan loop keeps the keys of the file table distinct. -/
theorem scanLoop_nodup (lines : List Str) (st st' : ScanState)
    (h : scanLoop st lines = some st') (hn : (st.Data.map Prod.fst).Nodup) :
    (st'.Data.map Prod.fst).Nodup := by
  induction lines generalizing st with
  | nil =>
    simp only [scanLoop] at h
    injection h with h
    subst h
    exact hn
  | cons line rest ih =>
    simp only [scanLoop] at h
    cases hl : scanLine st line with
    | none => simp [hl] at h
    | some st1 =>
      simp only [hl] at h
      exact ih st1 h (scanLine_nodup st st1 line hl hn)

/-- One iteration keeps the size of every entry, and after a record line the
table has an entry for its path with its size. -/
theorem scanLine_sizes (st st' : ScanState) (line : Str) (h : scanLine st line = some st') :
    (∀ p e, mapGet st.Data p = some e → ∃ e', mapGet st'.Data p = some e' ∧ e'.Size = e.Size) ∧
    (∀ ck size p, recordOf line = some (ck, size, p) →
      ∃ e, mapGet st'.Data p = some e ∧ e.Size = size) := by
  rcases scanLine_cases st st' line h with
    ⟨ck, size, q, hrec, -, -, hdata⟩ | ⟨hrec, hdata, -⟩
  · rcases hdata with ⟨cur, hcur, hsize, hd⟩ | ⟨hnone, hd⟩
    · constructor
      · intro p e hp
        by_cases hq : q = p
        · subst hq
          rw [hcur] at hp
          injection hp with hp
          subst hp
          exact ⟨(⟨cur.Checksum ++ [ck], cur.ChecksumType ++ [st.section_], cur.Size⟩ : RepoHashFile),
            by rw [hd, mapGet_mapSet_same], rfl⟩
        · exact ⟨e, by rw [hd, mapGet_mapSet_other _ _ _ _ hq]; exact hp, rfl⟩
      · intro ck' size' p hr
        rw [hrec] at hr
        injection hr with hr
        injection hr with h1 h2
        injection h2 with h2 h3
        subst h1; subst h2; subst h3
        exact ⟨(⟨cur.Checksum ++ [ck], cur.ChecksumType ++ [st.section_], cur.Size⟩ : RepoHashFile),
          by rw [hd, mapGet_mapSet_same], hsize⟩
    · constructor
      · intro p e hp
        by_cases hq : q = p
        · subst hq
          rw [hnone] at hp
          cases hp
        · exact ⟨e, by rw [hd, mapGet_mapSet_other _ _ _ _ hq]; exact hp, rfl⟩
      · intro ck' size' p hr
        rw [hrec] at hr
        injection hr with hr
        injection hr with h1 h2
        injection h2 with h2 h3
        subst h1; subst h2; subst h3
        exact ⟨_, by rw [hd, mapGet_mapSet_same], rfl⟩
  · constructor
    · intro p e hp
      exact ⟨e, by rw [hdata]; exact hp, rfl⟩
    · intro ck size p hr
      rw [hrec] at hr
      cases hr

/-- After the scan loop, every record line it read has an entry for its path
with its size, and the entries it started with have kept their size. -/
theorem scanLoop_sizes (lines : List Str) (st st' : ScanState)
    (h : scanLoop st lines = some st') :
    (∀ p e, mapGet st.Data p = some e → ∃ e', mapGet st'.Data p = some e' ∧ e'.Size = e.Size) ∧
    (∀ line ∈ lines, ∀ ck size p, recordOf line = some (ck, size, p) →
      ∃ e, mapGet st'.Data p = some e ∧ e.Size = size) := by
  induction lines generalizing st with
  | nil =>
    simp only [scanLoop] at h
    injection h with h
    subst h
    exact ⟨fun p e hp => ⟨e, hp, rfl⟩, by simp⟩
  | cons line rest ih =>
    simp only [scanLoop] at h
    cases hl : scanLine st line with
    | none => simp [hl] at h
    | some st1 =>
      simp only [hl] at h
      obtain ⟨hkeep1, hrec1⟩ := scanLine_sizes st st1 line hl
      obtain ⟨hkeep2, hrec2⟩ := ih st1 h
      constructor
      · intro p e hp
        obtain ⟨e1, he1, hs1⟩ := hkeep1 p e hp
        obtain ⟨e2, he2, hs2⟩ := hkeep2 p e1 he1
        exact ⟨e2, he2, hs2.trans hs1⟩
      · intro l hl' ck size p hr
        rcases List.mem_cons.mp hl' with rfl | hmem
        · obtain ⟨e1, he1, hs1⟩ := hrec1 ck size p hr
          obtain ⟨e2, he2, hs2⟩ := hkeep2 p e1 he1
          exact ⟨e2, he2, hs2.trans hs1⟩
        · exact hrec2 l hmem ck size p hr

/-- A snapshot returned by `parseRepomd` carries the header map and the file
table of the scan loop, and the contents it was given. -/
theorem parseRepomd_some (lib : Lib) (contents : Str) (snap : Repomd)
    (h : parseRepomd lib contents = some snap) :
    ∃ st, scanLoop ScanState.init (scanLines contents) = some st ∧
      snap.Data = st.Data ∧ snap.Header = st.Header ∧ snap.fileContents = contents := by
  unfold parseRepomd at h
  cases hs : scanLoop ScanState.init (scanLines contents) with
  | none => simp [hs] at h
  | some st =>
    simp only [hs] at h
    refine ⟨st, rfl, ?_⟩
    split at h
    · split at h
      · simp at h
      · injection h with h
        subst h
        exact ⟨rfl, rfl, rfl⟩
    · injection h with h
      subst h
      exact ⟨rfl, rfl, rfl⟩

/-- A snapshot returned by `readRepomdFile` is the parse of the contents read. -/
theorem readRepomdFile_some (lib : Lib) (w : World) (repomdFile : Str) (snap : Repomd)
    (h : readRepomdFile lib w repomdFile = .ok (some snap)) :
    ∃ contents, openSource w repomdFile = .reader contents ∧
      parseRepomd lib contents = some snap := by
  unfold readRepomdFile at h
  split at h
  · simp at h
  · simp at h
  · rename_i contents hc
    injection h with h
    exact ⟨contents, hc, h⟩

/-- Size consistency over the lines the scanner delivers: when two of them are
records for the same path with different sizes, no snapshot is produced. -/
theorem size_mismatch_rejected (lib : Lib) (contents : Str) (l1 l2 : Str)
    (ck1 ck2 p : Str) (size1 size2 : Int)
    (h1 : l1 ∈ scanLines contents) (h2 : l2 ∈ scanLines contents)
    (hr1 : recordOf l1 = some (ck1, size1, p)) (hr2 : recordOf l2 = some (ck2, size2, p))
    (hne : size1 ≠ size2) :
    parseRepomd lib contents = none := by
  cases hp : parseRepomd lib contents with
  | none => rfl
  | some snap =>
    exfalso
    obtain ⟨st, hst, -⟩ := parseRepomd_some lib contents snap hp
    obtain ⟨-, hrec⟩ := scanLoop_sizes _ _ _ hst
    obtain ⟨e1, he1, hs1⟩ := hrec l1 h1 ck1 size1 p hr1
    obtain ⟨e2, he2, hs2⟩ := hrec l2 h2 ck2 size2 p hr2
    rw [he1] at he2
    injection he2 with he2
    subst he2
    exact hne (hs1.symm.trans hs2)

/-- Every token that the field splitter emits is non-empty. -/
theorem fieldsAux_nonempty (s cur : Str) : ∀ f ∈ fieldsAux s cur, f ≠ [] := by
  induction s generalizing cur with
  | nil =>
    intro f hf
    simp only [fieldsAux] at hf
    split at hf
    · simp at hf
    · rename_i hc
      simp only [List.mem_singleton] at hf
      subst hf
      simpa using hc
  | cons c cs ih =>
    intro f hf
    simp only [fieldsAux] at hf
    split at hf
    · split at hf
      · exact ih [] f hf
      · rename_i hc
        rcases List.mem_cons.mp hf with rfl | hf
        · simpa using hc
        · exact ih [] f hf
    · exact ih _ f hf

/-- The checksum token of a record line is non-empty. -/
theorem recordOf_checksum_nonempty (line ck p : Str) (size : Int)
    (h : recordOf line = some (ck, size, p)) : ck ≠ [] := by
  unfold recordOf at h
  split at h
  · split at h
    · rename_i p0 p1 p2 hf
      split at h
      · injection h with h
        injection h with h1 h2
        subst h1
        exact fieldsAux_nonempty _ _ _ (by unfold Fields at hf; rw [hf]; simp)
      · cases h
    · cases h
  · cases h

/-- Every pair of the record lines has a non-empty checksum. -/
theorem pairsFor_checksum_nonempty (p : Str) (lines : List Str) (sec : Str) :
    ∀ pr ∈ pairsFor p sec lines, pr.1 ≠ [] := by
  induction lines generalizing sec with
  | nil => intro pr hpr; simp [pairsFor] at hpr
  | cons line rest ih =>
    intro pr hpr
    simp only [pairsFor] at hpr
    split at hpr
    · rename_i ck size path hrec
      split at hpr
      · rcases List.mem_cons.mp hpr with rfl | hpr
        · exact recordOf_checksum_nonempty line _ path _ hrec
        · exact ih sec pr hpr
      · exact ih sec pr hpr
    · split at hpr
      · exact ih _ pr hpr
      · exact ih sec pr hpr

/-- No checksum in the file table of a snapshot that `readRepomdFile` returns
is empty: the declared checksum that the fetch loop hands to
`readWithChecksum` always has at least one character. -/
theorem table_checksums_nonempty (lib : Lib) (w : World) (repomdFile : Str) (snap : Repomd)
    (h : readRepomdFile lib w repomdFile = .ok (some snap)) :
    ∀ p e, (p, e) ∈ snap.Data → ∀ ck ∈ e.Checksum, ck ≠ [] := by
  intro p e hmem ck hck
  obtain ⟨contents, -, hparse⟩ := readRepomdFile_some lib w repomdFile snap h
  obtain ⟨st, hst, hdata, -, -⟩ := parseRepomd_some lib contents snap hparse
  have hinit : Aligned ScanState.init.Data := by
    intro p e hp
    simp [ScanState.init, mapGet] at hp
  obtain ⟨hal, hpairs⟩ := scanLoop_pairs _ _ _ hst hinit
  have hnodup := scanLoop_nodup _ _ _ hst (by simp [ScanState.init])
  rw [hdata] at hmem
  have hget := mapGet_of_mem _ _ _ hnodup hmem
  obtain ⟨hlen, -⟩ := hal p e hget
  have hzip := hpairs p
  simp only [pairsIn, hget, ScanState.init, mapGet, List.nil_append] at hzip
  obtain ⟨i, hi, rfl⟩ := List.getElem_of_mem hck
  have hi2 : i < e.ChecksumType.length := hlen ▸ hi
  have hm : (e.Checksum[i], e.ChecksumType[i]) ∈ List.zip e.Checksum e.ChecksumType := by
    have hz : i < (List.zip e.Checksum e.ChecksumType).length := by
      simp [List.length_zip, hi, hi2]
    have := List.getElem_mem hz
    simpa using this
  rw [hzip] at hm
  exact pairsFor_checksum_nonempty p _ _ _ hm

/-- Scanning a run of the letter x moves it to the current line and counts its
bytes. -/
theorem scanLinesAux_replicate (k : Nat) (rest cur : Str) (n : Nat) :
    scanLinesAux (List.replicate k 'x' ++ rest) cur n =
      scanLinesAux rest (List.replicate k 'x' ++ cur) (n + k) := by
  induction k generalizing cur n with
  | zero => simp
  | succ k ih =>
    have hx : ('x' : Char) ≠ '\n' := by decide
    have hsz : ('x' : Char).utf8Size = 1 := by decide
    rw [List.replicate_succ, List.cons_append, scanLinesAux, if_neg hx, ih, hsz]
    have : List.replicate k 'x' ++ 'x' :: cur = 'x' :: List.replicate k 'x' ++ cur := by
      rw [← List.replicate_succ, List.replicate_succ', List.append_assoc]
      rfl
    rw [this, Nat.add_assoc, Nat.add_comm 1 k]

/-- A first line of `MaxScanTokenSize` bytes or more ends the scan without a
single token. -/
theorem scanLines_tooLong (k : Nat) (rest : Str) (hk : MaxScanTokenSize ≤ k) :
    scanLines (List.replicate k 'x' ++ '\n' :: rest) = [] := by
  unfold scanLines
  rw [scanLinesAux_replicate, scanLinesAux, if_pos rfl, if_pos (by omega)]

end DebGetRepomd
